import Mathlib

/-!
# cue-repeater: the relay pipeline

A shallow embedding of `main.go` (Receiver, Distributor, Sender) and of the
2048-byte test datagram of `send/main.go`.

Concurrency is modelled by interleaving: every goroutine is a small state
machine, the scheduler and the environment (socket reads, socket write
results, the interrupt) are the `Event` sequence fed to `step`.  A buffered Go
channel is a bounded FIFO list.  A send to a channel on which the consumer is
already parked is the same as an append followed at once by the consumer's
receive event.
-/

namespace CueRepeater

/-- A byte. -/
abbrev Byte := Fin 256

/-- A Go `[]byte`: one datagram payload. -/
abbrev Msg := List Byte

/-- A Go `error` value (non-nil); only its identity matters. -/
abbrev Err := Nat

/-- A `netip.AddrPort`: address (as a number) and port. -/
structure AddrPort where
  addr : Nat
  port : Nat
deriving DecidableEq, Repr

/-- The calls made on the global zap logger, one constructor per call site.
A `target` field names the Sender's socket by the address it was dialed with. -/
inductive LogEntry where
  /-- `logger.Fatal("failed to dial target", ...)` in `NewDistributor`. -/
  | failedToDial (target : AddrPort) (e : Err)
  /-- `logger.Sugar().Fatal("failed to start receiver:", err)` in `main`. -/
  | failedToStartReceiver (port : Int) (e : Err)
  /-- `logger.Info("starting new Sender", ...)` in `Sender.run`. -/
  | startingSender (target : AddrPort)
  /-- `logger.Info("starting receiver", ...)` in the Receiver goroutine. -/
  | startingReceiver (port : Int)
  /-- `logger.Debug("received message", ...)` in `Distributor.run`. -/
  | receivedMessage (m : Msg)
  /-- `logger.Debug("sending message", ...)` in `Sender.run`. -/
  | sendingMessage (m : Msg) (target : AddrPort)
  /-- `logger.Error("failed to write message", ...)` in `Sender.run`. -/
  | failedToWrite (m : Msg) (target : AddrPort) (e : Err)
  /-- `logger.Error("unexpected write length", ...)` in `Sender.run`. -/
  | unexpectedWriteLength (m : Msg) (target : AddrPort) (expected sent : Nat)
  /-- `logger.Fatal("failed to read from socket", ...)` in the Receiver goroutine. -/
  | failedToRead (port : Int) (e : Err)
  /-- `logger.Debug("empty")` in the Receiver goroutine. -/
  | empty
  /-- `logger.Debug("received data", ...)` in the Receiver goroutine. -/
  | receivedData (data : Msg)
deriving DecidableEq, Repr

/-! ## Channels -/

/-- A buffered `chan []byte`: the buffered messages, oldest first, and the
capacity given to `make`. -/
structure Chan where
  buf : List Msg
  cap : Nat
deriving DecidableEq, Repr

/-- The channel `make(chan []byte, n)`. -/
def Chan.make (n : Nat) : Chan := { buf := [], cap := n }

/-- The statement `select { case c <- m: default: }`: the send proceeds when
the buffer has room, otherwise the `default` case runs.  The flag tells which
case ran. -/
def Chan.trySend (c : Chan) (m : Msg) : Chan × Bool :=
  if c.buf.length < c.cap then ({ c with buf := c.buf ++ [m] }, true) else (c, false)

/-- The receive `m := <-c`: ready when the buffer is not empty, and then takes
the oldest message. -/
def Chan.recv (c : Chan) : Option (Msg × Chan) :=
  match c.buf with
  | [] => none
  | m :: rest => some (m, { c with buf := rest })

/-! ## Sockets -/

/-- What `(*net.UDPConn).Write` returned: the count `n` and the error. -/
structure WriteResult where
  n : Nat
  err : Option Err
deriving DecidableEq, Repr

/-- A dialed `*net.UDPConn`.  `remote` is the address the socket was dialed
with, the `raddr` handed to `net.DialUDP`; `sent` is the record of the `Write`
calls made on it (payload handed over, result returned), oldest first.  The
peer the operating system connects the socket to, which `RemoteAddr()`
reports, is not part of the model: two sockets dialed with different addresses
may reach one endpoint (0.0.0.0 reaches the local host), so nothing here counts
datagrams by the endpoint they arrive at. -/
structure UDPConn where
  remote : AddrPort
  sent : List (Msg × WriteResult)
deriving DecidableEq, Repr

/-- The call `t.Write(m)` returning `w`. -/
def UDPConn.Write (t : UDPConn) (m : Msg) (w : WriteResult) : UDPConn :=
  { t with sent := t.sent ++ [(m, w)] }

/-- The payloads handed to `Write` on this socket, oldest first. -/
def UDPConn.payloads (t : UDPConn) : List Msg := t.sent.map Prod.fst

/-- What the environment delivers to a blocked `conn.Read`: a datagram or an
error. -/
inductive ReadEvent where
  | datagram (dg : Msg)
  | error (e : Err)
deriving DecidableEq, Repr

/-- The call `conn.Read(b)` on a listening UDP socket: a datagram is copied to
the front of `b`, cut to the length of `b`; the count of bytes copied is
returned.  Result: the buffer afterwards, `n`, `err`. -/
def connRead (b : List Byte) : ReadEvent → List Byte × Nat × Option Err
  | .datagram dg => (dg.take b.length ++ b.drop dg.length, min dg.length b.length, none)
  | .error e => (b, 0, some e)

/-! ## Sender -/

/-- A `Sender` and its `run` goroutine.  `ch` and `t` are the fields of the Go
struct.  `cur` and `running` are the control state of `go s.run(ctx)`: the
message taken from `ch` whose `Write` has not returned yet, and whether the
loop has not returned.  `accepted` is a history variable: the messages for
which `Send` took the send case, oldest first. -/
structure Sender where
  ch : Chan
  t : UDPConn
  cur : Option Msg
  running : Bool
  accepted : List Msg
deriving DecidableEq, Repr

/-- `NewSender(ctx, target)`. -/
def NewSender (target : UDPConn) : Sender :=
  { ch := Chan.make 100, t := target, cur := none, running := true, accepted := [] }

/-- `func (s *Sender) Send(m []byte)`. -/
def Sender.Send (s : Sender) (m : Msg) : Sender :=
  let r := s.ch.trySend m
  { s with ch := r.1, accepted := if r.2 then s.accepted ++ [m] else s.accepted }

/-- `Sender.run`, the case `m := <-s.ch` of the `select`, up to the call of
`s.t.Write(m)`.  `none` when the loop is not at the `select` or the channel is
empty. -/
def Sender.recvCase (s : Sender) : Option (Sender × List LogEntry) :=
  if s.running = true ∧ s.cur = none then
    match s.ch.recv with
    | none => none
    | some (m, ch) =>
      some ({ s with ch := ch, cur := some m }, [.sendingMessage m s.t.remote])
  else none

/-- `Sender.run`, from the return of `s.t.Write(m)` with result `w` to the end
of the loop body.  `none` when no `Write` is pending. -/
def Sender.writeReturns (s : Sender) (w : WriteResult) : Option (Sender × List LogEntry) :=
  match s.cur with
  | none => none
  | some m =>
    let l1 : List LogEntry :=
      match w.err with
      | some e => [.failedToWrite m s.t.remote e]
      | none => []
    let l2 : List LogEntry :=
      if w.n ≠ m.length then [.unexpectedWriteLength m s.t.remote m.length w.n] else []
    some ({ s with t := s.t.Write m w, cur := none }, l1 ++ l2)

/-- `Sender.run`, the case `<-ctx.Done()` of the `select`: the loop returns.
`done` tells whether the context is cancelled.  `none` when the case is not
ready. -/
def Sender.doneCase (done : Bool) (s : Sender) : Option Sender :=
  if done = true ∧ s.running = true ∧ s.cur = none then some { s with running := false }
  else none

/-- The `for` loop of `Sender.run` on its own, the context never cancelled and
nobody sending meanwhile: trips round the loop until the `select` blocks on
the empty channel; `ws k` is what the `k`-th `Write` returns.  Result: the
Sender where the loop blocks (or ran out of fuel) and the log written. -/
def Sender.run : Nat → (Nat → WriteResult) → Sender → Sender × List LogEntry
  | 0, _, s => (s, [])
  | fuel + 1, ws, s =>
    match s.recvCase with
    | none => (s, [])
    | some (s1, l1) =>
      match s1.writeReturns (ws 0) with
      | none => (s1, l1)
      | some (s2, l2) =>
        let r := Sender.run fuel (fun k => ws (k + 1)) s2
        (r.1, l1 ++ l2 ++ r.2)

/-! ## Distributor -/

/-- A `Distributor` and its `run` goroutine.  `senders` and `ch` are the
fields of the Go struct.  `running` tells whether `go d.run(ctx)` has not
returned.  `dequeued` is a history variable: the messages `run` received from
`ch`, oldest first. -/
structure Distributor where
  senders : List Sender
  ch : Chan
  running : Bool
  dequeued : List Msg
deriving DecidableEq, Repr

/-- `func (d *Distributor) Send(m []byte)`. -/
def Distributor.Send (d : Distributor) (m : Msg) : Distributor :=
  { d with ch := (d.ch.trySend m).1 }

/-- `Distributor.run`, the case `m := <-d.ch` of the `select` with its body:
`s.Send(m)` for every sender in the order of `d.senders`.  `none` when the
loop has returned or the channel is empty.  The body is one step: each of its
sends touches the queue of one Sender only and never blocks, so a step of
another goroutine that falls between two of them can be moved before or after
the body without changing any queue. -/
def Distributor.recvCase (d : Distributor) : Option (Distributor × List LogEntry) :=
  if d.running = true then
    match d.ch.recv with
    | none => none
    | some (m, ch) =>
      some ({ d with ch := ch, senders := d.senders.map (fun s => s.Send m),
                     dequeued := d.dequeued ++ [m] },
            [.receivedMessage m])
  else none

/-- `Distributor.run`, the case `<-ctx.Done()` of the `select`: the loop
returns. -/
def Distributor.doneCase (done : Bool) (d : Distributor) : Option Distributor :=
  if done = true ∧ d.running = true then some { d with running := false } else none

/-! ## The process -/

/-- The parsed configuration file. -/
structure Config where
  ListenPorts : List Int
  Targets : List AddrPort
deriving DecidableEq, Repr

/-- The running process.  `d` is the Distributor with its Senders, `ports` the
listen ports (one Receiver goroutine each), `done` whether the context of
`signal.NotifyContext` is cancelled, `exited` whether `logger.Fatal` ended the
process, `log` the logger calls so far.  `forwarded` is a history variable:
the slices `b[:n]` the Receivers handed to `d.Send`, oldest first. -/
structure Pipeline where
  d : Distributor
  ports : List Int
  done : Bool
  exited : Bool
  log : List LogEntry
  forwarded : List Msg
deriving DecidableEq, Repr

/-- The loop of `NewDistributor` over the targets: dial, then `NewSender`, one
socket and one Sender per entry of the list, repeated entries included.
`dialErr t` is the error of `net.DialUDP` for `t`, if any; a failed dial is
fatal.  The socket records `t` as the address it was dialed with. -/
def dialAll (dialErr : AddrPort → Option Err) : List AddrPort → Except LogEntry (List Sender)
  | [] => .ok []
  | t :: ts =>
    match dialErr t with
    | some e => .error (.failedToDial t e)
    | none =>
      match dialAll dialErr ts with
      | .error l => .error l
      | .ok rest => .ok (NewSender { remote := t, sent := [] } :: rest)

/-- `NewDistributor(ctx, targets)`. -/
def NewDistributor (dialErr : AddrPort → Option Err) (targets : List AddrPort) :
    Except LogEntry Distributor :=
  match dialAll dialErr targets with
  | .error l => .error l
  | .ok senders =>
    .ok { senders := senders, ch := Chan.make 100, running := true, dequeued := [] }

/-- The loop of `main` over the listen ports: `NewReceiver` for each.
`listenErr p` is the error of resolving or binding port `p`, if any; it is
fatal. -/
def listenAll (listenErr : Int → Option Err) : List Int → Except LogEntry Unit
  | [] => .ok ()
  | p :: ps =>
    match listenErr p with
    | some e => .error (.failedToStartReceiver p e)
    | none => listenAll listenErr ps

/-- `main` from the decoded configuration to `<-ctx.Done()`: the process once
every Sender and every Receiver is started, or the fatal log entry that ended
it.  The start-up lines of the goroutines are logged in the order of
construction. -/
def start (dialErr : AddrPort → Option Err) (listenErr : Int → Option Err) (cfg : Config) :
    Except LogEntry Pipeline :=
  match NewDistributor dialErr cfg.Targets with
  | .error l => .error l
  | .ok d =>
    match listenAll listenErr cfg.ListenPorts with
    | .error l => .error l
    | .ok _ =>
      .ok { d := d, ports := cfg.ListenPorts, done := false, exited := false,
            log := cfg.Targets.map .startingSender ++ cfg.ListenPorts.map .startingReceiver,
            forwarded := [] }

/-- One trip round the read loop of a Receiver (listening on `port`) whose
`conn.Read` returns with `r`. -/
def Receiver.iter (port : Int) (r : ReadEvent) (p : Pipeline) : Pipeline :=
  let b : List Byte := List.replicate 256 0
  let res := connRead b r
  match res.2.2 with
  | some e => { p with log := p.log ++ [.failedToRead port e], exited := true }
  | none =>
    if res.2.1 = 0 then { p with log := p.log ++ [.empty] }
    else
      let m := res.1.take res.2.1
      { p with log := p.log ++ [.receivedData m], d := p.d.Send m,
               forwarded := p.forwarded ++ [m] }

/-- What the scheduler and the environment can make happen next. -/
inductive Event where
  /-- `os.Interrupt` arrives: the context is cancelled. -/
  | interrupt
  /-- The `conn.Read` of Receiver number `j` returns. -/
  | read (j : Nat) (r : ReadEvent)
  /-- A call `d.Send(m)` from outside the Receivers. -/
  | distSend (m : Msg)
  /-- `Distributor.run` takes the receive case. -/
  | distRecv
  /-- `Distributor.run` takes the `ctx.Done()` case. -/
  | distDone
  /-- A call `s.Send(m)` on Sender number `i` from outside `Distributor.run`. -/
  | senderSend (i : Nat) (m : Msg)
  /-- The `run` loop of Sender number `i` takes the receive case. -/
  | senderRecv (i : Nat)
  /-- The pending `Write` of Sender number `i` returns `w`. -/
  | senderWrite (i : Nat) (w : WriteResult)
  /-- The `run` loop of Sender number `i` takes the `ctx.Done()` case. -/
  | senderDone (i : Nat)
deriving DecidableEq, Repr

/-- Replace Sender number `i` by what `f` makes of it, and write the log `f`
returns; nothing happens when there is no such Sender or `f` gives `none`. -/
def Pipeline.onSender (p : Pipeline) (i : Nat) (f : Sender → Option (Sender × List LogEntry)) :
    Pipeline :=
  match p.d.senders[i]? with
  | none => p
  | some s =>
    match f s with
    | none => p
    | some (s1, l) =>
      { p with d := { p.d with senders := p.d.senders.set i s1 }, log := p.log ++ l }

/-- One event.  An event that is not enabled leaves the state as it is; so
does every event once the process has exited. -/
def step (p : Pipeline) (e : Event) : Pipeline :=
  if p.exited = true then p
  else
    match e with
    | .interrupt => { p with done := true }
    | .read j r =>
      match p.ports[j]? with
      | none => p
      | some port => Receiver.iter port r p
    | .distSend m => { p with d := p.d.Send m }
    | .distRecv =>
      match p.d.recvCase with
      | none => p
      | some (d, l) => { p with d := d, log := p.log ++ l }
    | .distDone =>
      match p.d.doneCase p.done with
      | none => p
      | some d => { p with d := d }
    | .senderSend i m => p.onSender i (fun s => some (s.Send m, []))
    | .senderRecv i => p.onSender i Sender.recvCase
    | .senderWrite i w => p.onSender i (fun s => s.writeReturns w)
    | .senderDone i => p.onSender i (fun s => (s.doneCase p.done).map (fun s1 => (s1, [])))

/-- An execution: the events in turn. -/
def run (p : Pipeline) (evs : List Event) : Pipeline := evs.foldl step p

/-- The datagram `send/main.go` writes after "test": 2048 times the byte 'x'. -/
def tooLarge : Msg := List.replicate 2048 120

/-! ## Sample inputs -/

/-- Three sample targets. -/
def sampleTargets : List AddrPort := [⟨1, 9001⟩, ⟨2, 9002⟩, ⟨3, 9003⟩]

/-- A sample configuration: one listen port, three targets. -/
def sampleConfig : Config := { ListenPorts := [8000], Targets := sampleTargets }

/-- The payload "ping". -/
def ping : Msg := [112, 105, 110, 103]

/-- A Sender whose queue holds 100 one-byte messages. -/
def fullSender (t : AddrPort) : Sender :=
  { NewSender { remote := t, sent := [] } with
    ch := { buf := List.replicate 100 [0], cap := 100 },
    accepted := List.replicate 100 [0] }

/-- A running process around the given senders, with the given Distributor
queue. -/
def samplePipeline (senders : List Sender) (q : List Msg) : Pipeline :=
  { d := { senders := senders, ch := { buf := q, cap := 100 }, running := true, dequeued := [] },
    ports := [8000], done := false, exited := false, log := [], forwarded := [] }


/-- The process `start` gives for `sampleConfig` when every dial and every
bind succeeds. -/
def sampleStart : Pipeline :=
  { d := { senders := [NewSender ⟨⟨1, 9001⟩, []⟩, NewSender ⟨⟨2, 9002⟩, []⟩,
                       NewSender ⟨⟨3, 9003⟩, []⟩],
           ch := Chan.make 100, running := true, dequeued := [] },
    ports := [8000], done := false, exited := false,
    log := [.startingSender ⟨1, 9001⟩, .startingSender ⟨2, 9002⟩, .startingSender ⟨3, 9003⟩,
            .startingReceiver 8000],
    forwarded := [] }

/-- One trip round the loop of a Sender: the receive case when it is ready,
then the return of the pending `Write` with `w`. -/
def Sender.trip (w : WriteResult) (s : Sender) : Sender :=
  let s1 := match s.recvCase with
    | some r => r.1
    | none => s
  match s1.writeReturns w with
  | some r => r.1
  | none => s1

/-- The events of one trip round the loop of each of the Senders `0, ..., n-1`
in turn; the `Write` of Sender `i` returns `ws i`. -/
def senderTrips (ws : Nat → WriteResult) : Nat → List Event
  | 0 => []
  | n + 1 => senderTrips ws n ++ [.senderRecv n, .senderWrite n (ws n)]

/-- An outside call of `Sender.Send`: the program itself calls `s.Send` only
from `Distributor.run`. -/
def Event.isSenderSend : Event → Bool
  | .senderSend _ _ => true
  | _ => false

/-- An outside call of `Distributor.Send`: the program itself calls `d.Send`
only from the Receivers. -/
def Event.isDistSend : Event → Bool
  | .distSend _ => true
  | _ => false

/-- The number of `Write` calls made so far on the sockets that were dialed
with the address `T`.  All of these go to the endpoint `T` names; it is a
lower bound on what that endpoint is sent. -/
def Pipeline.writesTo (p : Pipeline) (T : AddrPort) : Nat :=
  ((p.d.senders.filter (fun s => decide (s.t.remote = T))).map (fun s => s.t.sent.length)).sum

/-- A configuration that lists the same target twice. -/
def dupConfig : Config := { ListenPorts := [8000], Targets := [⟨1, 9001⟩, ⟨1, 9001⟩] }

/-- The process `start` gives for `dupConfig`. -/
def dupStart : Pipeline :=
  { d := { senders := [NewSender ⟨⟨1, 9001⟩, []⟩, NewSender ⟨⟨1, 9001⟩, []⟩],
           ch := Chan.make 100, running := true, dequeued := [] },
    ports := [8000], done := false, exited := false,
    log := [.startingSender ⟨1, 9001⟩, .startingSender ⟨1, 9001⟩, .startingReceiver 8000],
    forwarded := [] }

/-- One read of "ping", one dispatch step of the Distributor, one trip round
the loop of each of two Senders, every `Write` succeeding in full. -/
def pingThroughTwo : List Event :=
  [.read 0 (.datagram ping), .distRecv] ++ senderTrips (fun _ => ⟨4, none⟩) 2

/-- What can happen at a Sender while its `Write` does not return: a call of
`Send`, or the loop taking the receive case (it then sits in `Write`). -/
inductive StallOp where
  | send (m : Msg)
  | take
deriving DecidableEq, Repr

/-- A Sender under a sequence of such steps. -/
def Sender.stalled (s : Sender) : List StallOp → Sender
  | [] => s
  | .send m :: ops => (s.Send m).stalled ops
  | .take :: ops =>
    (match s.recvCase with
      | some r => r.1
      | none => s).stalled ops

/-- The messages submitted by a sequence of steps, in order. -/
def StallOp.sends : List StallOp → List Msg
  | [] => []
  | .send m :: ops => m :: StallOp.sends ops
  | .take :: ops => StallOp.sends ops

/-- One message is submitted, the loop takes it and stalls in `Write`, then
149 more messages are submitted. -/
def stallAfterFirst : List StallOp :=
  .send [1] :: .take :: List.replicate 149 (.send [2])

/-- A Sender that accepted "ping" and wrote it in full. -/
def pingWritten (t : AddrPort) : Sender :=
  { ch := { buf := [], cap := 100 }, t := { remote := t, sent := [(ping, ⟨4, none⟩)] },
    cur := none, running := true, accepted := [ping] }

/-- Every message a Sender accepted is written, being written, or queued. -/
def AcctInv (p : Pipeline) : Prop :=
  ∀ s ∈ p.d.senders, s.accepted = s.t.payloads ++ s.cur.toList ++ s.ch.buf

/-- What a Sender accepted is a subsequence of what the Distributor dequeued. -/
def OrdInv (p : Pipeline) : Prop :=
  ∀ s ∈ p.d.senders, s.accepted.Sublist p.d.dequeued

/-- What the Distributor dequeued or still queues is a subsequence of what the
Receivers forwarded. -/
def SrcInv (p : Pipeline) : Prop :=
  (p.d.dequeued ++ p.d.ch.buf).Sublist p.forwarded

/-- The queues respect the capacity 100. -/
def CapInv (p : Pipeline) : Prop :=
  p.d.ch.cap = 100 ∧ p.d.ch.buf.length ≤ 100 ∧
    ∀ s ∈ p.d.senders, s.ch.cap = 100 ∧ s.ch.buf.length ≤ 100

/-! ## Basic facts about channels and `Send` -/

theorem Chan.trySend_cap (c : Chan) (m : Msg) : (c.trySend m).1.cap = c.cap := by
  unfold Chan.trySend
  split <;> rfl

theorem Chan.trySend_buf (c : Chan) (m : Msg) :
    (c.trySend m).1.buf = if c.buf.length < c.cap then c.buf ++ [m] else c.buf := by
  unfold Chan.trySend
  split <;> rfl

theorem Chan.trySend_length_le (c : Chan) (m : Msg) (h : c.buf.length ≤ c.cap) :
    (c.trySend m).1.buf.length ≤ c.cap := by
  rw [Chan.trySend_buf]
  split
  · simp only [List.length_append, List.length_singleton]; omega
  · exact h

theorem Chan.recv_eq_some {c c1 : Chan} {m : Msg} (h : c.recv = some (m, c1)) :
    c.buf = m :: c1.buf ∧ c1.cap = c.cap := by
  unfold Chan.recv at h
  split at h
  · simp at h
  · rename_i m0 rest hb
    simp only [Option.some.injEq, Prod.mk.injEq] at h
    obtain ⟨rfl, rfl⟩ := h
    exact ⟨hb, rfl⟩

/-- C1: with a queue of capacity 100, `Distributor.Send(m)` and
`Sender.Send(m)` are total (they return, and there is no error to return);
each appends `m` at the tail of the queue when it holds fewer than 100
messages and changes nothing else of the component, and each leaves the
component exactly as it was when the queue holds 100 messages (`m` is
dropped).  For the Sender the history of accepted messages grows with the
queue. -/
theorem send_enqueues_or_drops (d : Distributor) (s : Sender) (m : Msg)
    (hd : d.ch.cap = 100) (hs : s.ch.cap = 100) :
    d.Send m = (if d.ch.buf.length < 100
      then { d with ch := { d.ch with buf := d.ch.buf ++ [m] } } else d) ∧
    s.Send m = (if s.ch.buf.length < 100
      then { s with ch := { s.ch with buf := s.ch.buf ++ [m] },
                    accepted := s.accepted ++ [m] } else s) := by
  constructor
  · unfold Distributor.Send Chan.trySend
    by_cases h : d.ch.buf.length < 100
    · have h1 : d.ch.buf.length < d.ch.cap := by omega
      simp only [h, h1, if_true]
    · have h1 : ¬ d.ch.buf.length < d.ch.cap := by omega
      simp only [h, h1, if_false]
  · unfold Sender.Send Chan.trySend
    by_cases h : s.ch.buf.length < 100
    · have h1 : s.ch.buf.length < s.ch.cap := by omega
      simp only [h, h1, if_true]
    · have h1 : ¬ s.ch.buf.length < s.ch.cap := by omega
      simp [h, h1]

/-- Witness of C1: a Distributor without senders and a new Sender, both with
an empty queue of capacity 100, and the message "A". -/
theorem send_enqueues_or_drops_witness :
    ({ senders := [], ch := Chan.make 100, running := true, dequeued := [] } :
        Distributor).Send [65] =
      { senders := [], ch := { buf := [[65]], cap := 100 }, running := true, dequeued := [] } ∧
    (NewSender { remote := ⟨1, 9000⟩, sent := [] }).Send [65] =
      { ch := { buf := [[65]], cap := 100 }, t := { remote := ⟨1, 9000⟩, sent := [] },
        cur := none, running := true, accepted := [[65]] } :=
  send_enqueues_or_drops
    { senders := [], ch := Chan.make 100, running := true, dequeued := [] }
    (NewSender { remote := ⟨1, 9000⟩, sent := [] }) [65] rfl rfl

theorem Receiver.iter_datagram (port : Int) (dg : Msg) (p : Pipeline) :
    Receiver.iter port (.datagram dg) p =
      (if dg.length = 0 then { p with log := p.log ++ [.empty] }
       else { p with log := p.log ++ [.receivedData (dg.take (min dg.length 256))],
                     d := p.d.Send (dg.take (min dg.length 256)),
                     forwarded := p.forwarded ++ [dg.take (min dg.length 256)] }) := by
  have ht : (List.take 256 dg ++ List.drop dg.length (List.replicate 256 (0 : Byte))).take
      (min dg.length 256) = dg.take (min dg.length 256) := by
    have h1 : (List.take 256 dg).length = min dg.length 256 := by
      rw [List.length_take]; exact Nat.min_comm _ _
    rw [← h1, List.take_left' rfl, h1]
    by_cases hle : dg.length ≤ 256
    · rw [Nat.min_eq_left hle, List.take_of_length_le hle, List.take_of_length_le (le_refl _)]
    · rw [Nat.min_eq_right (by omega)]
  simp only [Receiver.iter, connRead, List.length_replicate, ht]
  by_cases h0 : dg.length = 0
  · simp [h0]
  · have : ¬ min dg.length 256 = 0 := by omega
    simp [h0, this]

/-- C9: when `conn.Read` into the 256-byte buffer succeeds with a datagram of
length `L`, one trip round the read loop hands to `d.Send` exactly the first
`min L 256` bytes of the datagram when `L > 0`, and hands over nothing and
leaves the Distributor as it is when `L = 0`; in both cases the process has
not exited, so the loop goes on to the next `Read`.  The 2048-byte datagram
of `send/main.go` is forwarded as its first 256 bytes. -/
theorem receiver_forwards_first_256 (port : Int) (dg : Msg) (p : Pipeline) :
    Receiver.iter port (.datagram dg) p =
      (if dg.length = 0 then { p with log := p.log ++ [.empty] }
       else { p with log := p.log ++ [.receivedData (dg.take (min dg.length 256))],
                     d := p.d.Send (dg.take (min dg.length 256)),
                     forwarded := p.forwarded ++ [dg.take (min dg.length 256)] }) ∧
    (dg.take (min dg.length 256)).length = min dg.length 256 ∧
    (Receiver.iter port (.datagram dg) p).exited = p.exited ∧
    (Receiver.iter port (.datagram tooLarge) p).d = p.d.Send (List.replicate 256 120) ∧
    (List.replicate 256 (120 : Byte)).length = 256 := by
  have key := fun dg => Receiver.iter_datagram port dg p
  refine ⟨key dg, ?_, ?_, ?_, ?_⟩
  · rw [List.length_take]; omega
  · rw [key dg]; split <;> rfl
  · rw [key tooLarge]
    have hl : tooLarge.length = 2048 := List.length_replicate _ _
    have hm : min 2048 256 = 256 := by decide
    have ht : tooLarge.take (min tooLarge.length 256) = List.replicate 256 120 := by
      have hm2 : min 256 2048 = 256 := by decide
      rw [hl, hm, tooLarge, List.take_replicate, hm2]
    rw [ht, hl, if_neg (by decide)]
  · exact List.length_replicate _ _

/-! ## Facts about single events -/

theorem step_distRecv (p : Pipeline) (m : Msg) (hex : p.exited = false)
    (hr : p.d.running = true) (hq : p.d.ch.buf.head? = some m) :
    step p .distRecv =
      { p with d := { p.d with ch := { p.d.ch with buf := p.d.ch.buf.tail },
                               senders := p.d.senders.map (fun s => s.Send m),
                               dequeued := p.d.dequeued ++ [m] },
               log := p.log ++ [.receivedMessage m] } := by
  cases hb : p.d.ch.buf with
  | nil => rw [hb] at hq; simp at hq
  | cons a rest =>
    rw [hb] at hq
    simp only [List.head?_cons, Option.some.injEq] at hq
    subst hq
    simp [step, hex, Distributor.recvCase, hr, Chan.recv, hb]

/-- C7: one dispatch iteration of the Distributor on `m` turns Sender number
`i` into `s.Send m`, whatever the other Senders hold.  So two states that
agree on the queue of Sender `i` leave it with the same queue, the queue is
the old one with `m` at the tail when it had room (even if every other queue
is full), and is the old one when it was full. -/
theorem fanout_isolates_senders (p1 p2 : Pipeline) (i : Nat) (m : Msg) (s1 s2 : Sender)
    (e1 : p1.exited = false) (e2 : p2.exited = false)
    (r1 : p1.d.running = true) (r2 : p2.d.running = true)
    (q1 : p1.d.ch.buf.head? = some m) (q2 : p2.d.ch.buf.head? = some m)
    (h1 : p1.d.senders[i]? = some s1) (h2 : p2.d.senders[i]? = some s2)
    (hq : s1.ch = s2.ch) :
    (step p1 .distRecv).d.senders[i]? = some (s1.Send m) ∧
    (step p2 .distRecv).d.senders[i]? = some (s2.Send m) ∧
    (s1.Send m).ch = (s2.Send m).ch ∧
    (s1.Send m).ch.buf =
      (if s1.ch.buf.length < s1.ch.cap then s1.ch.buf ++ [m] else s1.ch.buf) := by
  refine ⟨?_, ?_, ?_, ?_⟩
  · rw [step_distRecv p1 m e1 r1 q1]; simp [h1]
  · rw [step_distRecv p2 m e2 r2 q2]; simp [h2]
  · simp only [Sender.Send, hq]
  · simp only [Sender.Send, Chan.trySend_buf]

/-- Witness of C7: Sender 1 is empty in both states; Sender 0 is full in the
first state and empty in the second. -/
theorem fanout_isolates_senders_witness :
    (step (samplePipeline [fullSender ⟨1, 9001⟩, NewSender ⟨⟨2, 9002⟩, []⟩] [ping])
        .distRecv).d.senders[1]? = some ((NewSender ⟨⟨2, 9002⟩, []⟩).Send ping) ∧
    (step (samplePipeline [NewSender ⟨⟨1, 9001⟩, []⟩, NewSender ⟨⟨2, 9002⟩, []⟩] [ping])
        .distRecv).d.senders[1]? = some ((NewSender ⟨⟨2, 9002⟩, []⟩).Send ping) ∧
    ((NewSender ⟨⟨2, 9002⟩, []⟩).Send ping).ch = ((NewSender ⟨⟨2, 9002⟩, []⟩).Send ping).ch ∧
    ((NewSender ⟨⟨2, 9002⟩, []⟩).Send ping).ch.buf =
      (if (NewSender ⟨⟨2, 9002⟩, []⟩).ch.buf.length < (NewSender ⟨⟨2, 9002⟩, []⟩).ch.cap
        then (NewSender ⟨⟨2, 9002⟩, []⟩).ch.buf ++ [ping]
        else (NewSender ⟨⟨2, 9002⟩, []⟩).ch.buf) :=
  fanout_isolates_senders
    (samplePipeline [fullSender ⟨1, 9001⟩, NewSender ⟨⟨2, 9002⟩, []⟩] [ping])
    (samplePipeline [NewSender ⟨⟨1, 9001⟩, []⟩, NewSender ⟨⟨2, 9002⟩, []⟩] [ping])
    1 ping (NewSender ⟨⟨2, 9002⟩, []⟩) (NewSender ⟨⟨2, 9002⟩, []⟩)
    rfl rfl rfl rfl rfl rfl rfl rfl rfl

/-! ## Start-up -/

theorem dialAll_ok {dialErr : AddrPort → Option Err} {ts : List AddrPort} {ss : List Sender}
    (h : dialAll dialErr ts = .ok ss) :
    ss = ts.map (fun t => NewSender { remote := t, sent := [] }) := by
  induction ts generalizing ss with
  | nil =>
    simp only [dialAll, Except.ok.injEq] at h
    simp [← h]
  | cons t ts ih =>
    unfold dialAll at h
    split at h
    · cases h
    · split at h
      · cases h
      · rename_i rest hrest
        simp only [Except.ok.injEq] at h
        subst h
        rw [ih hrest]
        rfl

theorem start_ok {dialErr : AddrPort → Option Err} {listenErr : Int → Option Err}
    {cfg : Config} {p : Pipeline} (h : start dialErr listenErr cfg = .ok p) :
    p.d.senders = cfg.Targets.map (fun t => NewSender { remote := t, sent := [] }) ∧
    p.d.ch = Chan.make 100 ∧ p.d.running = true ∧ p.d.dequeued = [] ∧
    p.ports = cfg.ListenPorts ∧ p.done = false ∧ p.exited = false ∧ p.forwarded = [] := by
  unfold start NewDistributor at h
  split at h
  · cases h
  · rename_i d hd
    split at hd
    · cases hd
    · rename_i ss hss
      simp only [Except.ok.injEq] at hd
      subst hd
      split at h
      · cases h
      · simp only [Except.ok.injEq] at h
        subst h
        exact ⟨dialAll_ok hss, rfl, rfl, rfl, rfl, rfl, rfl, rfl⟩

/-! ## Events on one Sender -/

theorem Pipeline.onSender_cases (p : Pipeline) (i : Nat)
    (f : Sender → Option (Sender × List LogEntry)) :
    p.onSender i f = p ∨
    ∃ s s1 l, p.d.senders[i]? = some s ∧ f s = some (s1, l) ∧
      p.onSender i f =
        { p with d := { p.d with senders := p.d.senders.set i s1 }, log := p.log ++ l } := by
  unfold Pipeline.onSender
  cases hs : p.d.senders[i]? with
  | none => left; rfl
  | some s =>
    cases hf : f s with
    | none => left; simp only [hf]
    | some r =>
      obtain ⟨s1, l⟩ := r
      right
      exact ⟨s, s1, l, rfl, hf, by simp only [hf]⟩

theorem mem_of_getElem?_eq_some {α : Type} {l : List α} {i : Nat} {a : α}
    (h : l[i]? = some a) : a ∈ l := by
  obtain ⟨hi, rfl⟩ := List.getElem?_eq_some.mp h
  exact List.getElem_mem hi

theorem forall_mem_set {α : Type} {P : α → Prop} {l : List α} (i : Nat) {a : α}
    (hl : ∀ x ∈ l, P x) (ha : P a) : ∀ x ∈ l.set i a, P x := by
  intro x hx
  rcases List.mem_or_eq_of_mem_set hx with h | h
  · exact hl x h
  · exact h ▸ ha

/-! ## The capacity invariant -/

theorem CapInv_start {dialErr : AddrPort → Option Err} {listenErr : Int → Option Err}
    {cfg : Config} {p : Pipeline} (h : start dialErr listenErr cfg = .ok p) : CapInv p := by
  obtain ⟨hs, hc, -⟩ := start_ok h
  refine ⟨by rw [hc]; rfl, by rw [hc]; simp [Chan.make], ?_⟩
  intro s hmem
  rw [hs] at hmem
  obtain ⟨t, -, rfl⟩ := List.mem_map.mp hmem
  exact ⟨rfl, by simp [NewSender, Chan.make]⟩

theorem sender_Send_cap (s : Sender) (m : Msg) (h : s.ch.cap = 100 ∧ s.ch.buf.length ≤ 100) :
    (s.Send m).ch.cap = 100 ∧ (s.Send m).ch.buf.length ≤ 100 := by
  have h1 := Chan.trySend_cap s.ch m
  have h2 := Chan.trySend_length_le s.ch m (by omega)
  simp only [Sender.Send]
  constructor <;> omega

theorem distributor_Send_cap (d : Distributor) (m : Msg)
    (h : d.ch.cap = 100 ∧ d.ch.buf.length ≤ 100) :
    (d.Send m).ch.cap = 100 ∧ (d.Send m).ch.buf.length ≤ 100 ∧ (d.Send m).senders = d.senders := by
  have h1 := Chan.trySend_cap d.ch m
  have h2 := Chan.trySend_length_le d.ch m (by omega)
  simp only [Distributor.Send]
  refine ⟨by omega, by omega, trivial⟩

theorem sender_recvCase_eq_some {s s1 : Sender} {l : List LogEntry}
    (h : s.recvCase = some (s1, l)) :
    ∃ m, s.ch.buf = m :: s1.ch.buf ∧ s1.ch.cap = s.ch.cap ∧ s.cur = none ∧ s1.cur = some m ∧
      s.running = true ∧ s1.running = true ∧
      s1.t = s.t ∧ s1.accepted = s.accepted ∧ l = [.sendingMessage m s.t.remote] := by
  unfold Sender.recvCase at h
  split at h
  · rename_i hg
    cases hr : s.ch.recv with
    | none => rw [hr] at h; cases h
    | some r =>
      obtain ⟨m, ch⟩ := r
      rw [hr] at h
      simp only [Option.some.injEq, Prod.mk.injEq] at h
      obtain ⟨rfl, rfl⟩ := h
      obtain ⟨hb, hc⟩ := Chan.recv_eq_some hr
      exact ⟨m, hb, hc, hg.2, rfl, hg.1, hg.1, rfl, rfl, rfl⟩
  · cases h

theorem Sender.writeReturns_eq_some {s s1 : Sender} {w : WriteResult} {l : List LogEntry}
    (h : s.writeReturns w = some (s1, l)) :
    ∃ m, s.cur = some m ∧ s1.cur = none ∧ s1.ch = s.ch ∧ s1.t = s.t.Write m w ∧
      s1.running = s.running ∧ s1.accepted = s.accepted := by
  unfold Sender.writeReturns at h
  split at h
  · cases h
  · rename_i m hm
    simp only [Option.some.injEq, Prod.mk.injEq] at h
    obtain ⟨rfl, -⟩ := h
    exact ⟨m, hm, rfl, rfl, rfl, rfl, rfl⟩

theorem sender_doneCase_eq_some {done : Bool} {s s1 : Sender} (h : s.doneCase done = some s1) :
    done = true ∧ s1 = { s with running := false } := by
  unfold Sender.doneCase at h
  split at h
  · rename_i hg
    simp only [Option.some.injEq] at h
    exact ⟨hg.1, h.symm⟩
  · cases h

theorem distributor_recvCase_eq_some {d d1 : Distributor} {l : List LogEntry}
    (h : d.recvCase = some (d1, l)) :
    ∃ m, d.ch.buf = m :: d1.ch.buf ∧ d1.ch.cap = d.ch.cap ∧
      d1.senders = d.senders.map (fun s => s.Send m) ∧ d1.dequeued = d.dequeued ++ [m] ∧
      d.running = true ∧ d1.running = true := by
  unfold Distributor.recvCase at h
  split at h
  · rename_i hg
    cases hr : d.ch.recv with
    | none => rw [hr] at h; cases h
    | some r =>
      obtain ⟨m, ch⟩ := r
      rw [hr] at h
      simp only [Option.some.injEq, Prod.mk.injEq] at h
      obtain ⟨rfl, -⟩ := h
      obtain ⟨hb, hc⟩ := Chan.recv_eq_some hr
      exact ⟨m, hb, hc, rfl, rfl, hg, hg⟩
  · cases h

theorem distributor_doneCase_eq_some {done : Bool} {d d1 : Distributor}
    (h : d.doneCase done = some d1) : done = true ∧ d1 = { d with running := false } := by
  unfold Distributor.doneCase at h
  split at h
  · rename_i hg
    simp only [Option.some.injEq] at h
    exact ⟨hg.1, h.symm⟩
  · cases h

theorem Receiver.iter_cases (port : Int) (r : ReadEvent) (p : Pipeline) :
    (∃ e, Receiver.iter port r p = { p with log := p.log ++ [.failedToRead port e],
                                            exited := true }) ∨
    Receiver.iter port r p = { p with log := p.log ++ [.empty] } ∨
    ∃ m, m ≠ [] ∧ Receiver.iter port r p =
      { p with log := p.log ++ [.receivedData m], d := p.d.Send m,
               forwarded := p.forwarded ++ [m] } := by
  cases r with
  | error e => left; exact ⟨e, rfl⟩
  | datagram dg =>
    right
    simp only [Receiver.iter, connRead]
    split
    · left; rfl
    · rename_i hn
      right
      refine ⟨_, ?_, rfl⟩
      intro h0
      apply hn
      have := congrArg List.length h0
      simp only [List.length_take, List.length_append, List.length_drop, List.length_replicate,
        List.length_nil] at this
      omega

theorem step_CapInv (p : Pipeline) (e : Event) (h : CapInv p) : CapInv (step p e) := by
  obtain ⟨hc, hl, hs⟩ := h
  unfold step
  split
  · exact ⟨hc, hl, hs⟩
  · cases e with
    | interrupt => exact ⟨hc, hl, hs⟩
    | read j r =>
      dsimp only
      split
      · exact ⟨hc, hl, hs⟩
      · rename_i port _
        rcases Receiver.iter_cases port r p with ⟨e, he⟩ | he | ⟨m, -, he⟩
        · rw [he]; exact ⟨hc, hl, hs⟩
        · rw [he]; exact ⟨hc, hl, hs⟩
        · rw [he]
          obtain ⟨h1, h2, h3⟩ := distributor_Send_cap p.d m ⟨hc, hl⟩
          exact ⟨h1, h2, by rw [h3]; exact hs⟩
    | distSend m =>
      obtain ⟨h1, h2, h3⟩ := distributor_Send_cap p.d m ⟨hc, hl⟩
      exact ⟨h1, h2, by dsimp only; rw [h3]; exact hs⟩
    | distRecv =>
      dsimp only
      split
      · exact ⟨hc, hl, hs⟩
      · rename_i d l hd
        obtain ⟨m, hb, hcap, hsend, -⟩ := distributor_recvCase_eq_some hd
        refine ⟨by dsimp only; omega, ?_, ?_⟩
        · have := congrArg List.length hb
          simp only [List.length_cons] at this
          dsimp only; omega
        · dsimp only
          rw [hsend]
          intro s hmem
          obtain ⟨s0, hs0, rfl⟩ := List.mem_map.mp hmem
          exact sender_Send_cap s0 m (hs s0 hs0)
    | distDone =>
      dsimp only
      split
      · exact ⟨hc, hl, hs⟩
      · rename_i d hd
        obtain ⟨-, rfl⟩ := distributor_doneCase_eq_some hd
        exact ⟨hc, hl, hs⟩
    | senderSend i m =>
      dsimp only
      rcases Pipeline.onSender_cases p i (fun s => some (s.Send m, [])) with he | ⟨s, s1, l, hi, hf, he⟩
      · rw [he]; exact ⟨hc, hl, hs⟩
      · rw [he]
        simp only [Option.some.injEq, Prod.mk.injEq] at hf
        refine ⟨hc, hl, forall_mem_set i hs ?_⟩
        rw [← hf.1]
        exact sender_Send_cap s m (hs s (mem_of_getElem?_eq_some hi))
    | senderRecv i =>
      dsimp only
      rcases Pipeline.onSender_cases p i Sender.recvCase with he | ⟨s, s1, l, hi, hf, he⟩
      · rw [he]; exact ⟨hc, hl, hs⟩
      · rw [he]
        obtain ⟨m, hb, hcap, -⟩ := sender_recvCase_eq_some hf
        have hs0 := hs s (mem_of_getElem?_eq_some hi)
        refine ⟨hc, hl, forall_mem_set i hs ⟨by omega, ?_⟩⟩
        have := congrArg List.length hb
        simp only [List.length_cons] at this
        omega
    | senderWrite i w =>
      dsimp only
      rcases Pipeline.onSender_cases p i (fun s => s.writeReturns w) with he | ⟨s, s1, l, hi, hf, he⟩
      · rw [he]; exact ⟨hc, hl, hs⟩
      · rw [he]
        obtain ⟨m, -, -, hch, -⟩ := Sender.writeReturns_eq_some hf
        have hs0 := hs s (mem_of_getElem?_eq_some hi)
        exact ⟨hc, hl, forall_mem_set i hs (by rw [hch]; exact hs0)⟩
    | senderDone i =>
      dsimp only
      rcases Pipeline.onSender_cases p i
        (fun s => (s.doneCase p.done).map (fun s1 => (s1, []))) with he | ⟨s, s1, l, hi, hf, he⟩
      · rw [he]; exact ⟨hc, hl, hs⟩
      · rw [he]
        simp only [Option.map_eq_some', Prod.mk.injEq] at hf
        obtain ⟨s2, hf2, rfl, -⟩ := hf
        obtain ⟨-, rfl⟩ := sender_doneCase_eq_some hf2
        exact ⟨hc, hl, forall_mem_set i hs (hs s (mem_of_getElem?_eq_some hi))⟩

theorem run_CapInv (evs : List Event) (p : Pipeline) (h : CapInv p) : CapInv (run p evs) := by
  induction evs generalizing p with
  | nil => exact h
  | cons e evs ih => exact ih (step p e) (step_CapInv p e h)

/-- C3: in every state reached from a freshly started process by any sequence
of events (Receiver reads, outside calls of `Distributor.Send` and of
`Sender.Send`, dispatch steps of the Distributor and of the Senders, the
interrupt), the Distributor's queue and every Sender's queue hold at most 100
messages. -/
theorem queues_never_exceed_capacity (dialErr : AddrPort → Option Err)
    (listenErr : Int → Option Err) (cfg : Config) (p0 : Pipeline) (evs : List Event)
    (h : start dialErr listenErr cfg = .ok p0) :
    (run p0 evs).d.ch.buf.length ≤ 100 ∧
    ∀ s ∈ (run p0 evs).d.senders, s.ch.buf.length ≤ 100 := by
  obtain ⟨-, h1, h2⟩ := run_CapInv evs p0 (CapInv_start h)
  exact ⟨h1, fun s hs => (h2 s hs).2⟩

/-- Witness of C3: the sample configuration, one read of "ping" and one
dispatch step of the Distributor; the Distributor's queue and the queue of
Sender 0. -/
theorem queues_never_exceed_capacity_witness :
    start (fun _ => none) (fun _ => none) sampleConfig = .ok sampleStart ∧
    (run sampleStart [.distSend ping, .distRecv]).d.ch.buf.length ≤ 100 ∧
    ((NewSender ⟨⟨1, 9001⟩, []⟩).Send ping).ch.buf.length ≤ 100 :=
  have h := queues_never_exceed_capacity (fun _ => none) (fun _ => none) sampleConfig
    sampleStart [.distSend ping, .distRecv] rfl
  ⟨rfl, h.1, h.2 ((NewSender ⟨⟨1, 9001⟩, []⟩).Send ping) (by decide)⟩

/-! ## Shutdown -/

set_option maxRecDepth 100000 in
/-- C10, counterexample: in the state reached from the sample start by the
interrupt the shutdown signal has fired, and still an outside `d.Send`, a
Receiver read and an outside `s.Send` on Sender 0 each put "ping" into the
empty queue they target.  Without any outside call: after the interrupt a
Receiver reads "ping" and forwards it, the Distributor's `select` has both
cases ready and takes the receive case, and every Sender's queue accepts
"ping". -/
theorem send_after_shutdown_counterexample :
    (run sampleStart [.interrupt]).done = true ∧
    (run sampleStart [.interrupt]).d.ch.buf = [] ∧
    (step (run sampleStart [.interrupt]) (.distSend ping)).d.ch.buf = [ping] ∧
    (step (run sampleStart [.interrupt]) (.read 0 (.datagram ping))).d.ch.buf = [ping] ∧
    (run sampleStart [.interrupt]).d.senders[0]? = some (NewSender ⟨⟨1, 9001⟩, []⟩) ∧
    (NewSender ⟨⟨1, 9001⟩, []⟩).ch.buf = [] ∧
    ((NewSender ⟨⟨1, 9001⟩, []⟩).Send ping).ch.buf = [ping] ∧
    (step (run sampleStart [.interrupt]) (.senderSend 0 ping)).d.senders[0]? =
      some ((NewSender ⟨⟨1, 9001⟩, []⟩).Send ping) ∧
    (run sampleStart [.interrupt, .read 0 (.datagram ping), .distRecv]).d.senders.map
      (fun s => s.ch.buf) = [[ping], [ping], [ping]] := by
  have hp : (run sampleStart [.interrupt]).ports[0]? = some 8000 := rfl
  have he : (run sampleStart [.interrupt]).exited = false := rfl
  have hr : step (run sampleStart [.interrupt]) (.read 0 (.datagram ping)) =
      { run sampleStart [.interrupt] with
        log := (run sampleStart [.interrupt]).log ++ [.receivedData ping],
        d := (run sampleStart [.interrupt]).d.Send ping,
        forwarded := [ping] } := by
    simp only [step, he, hp, Receiver.iter_datagram]
    rfl
  refine ⟨rfl, rfl, rfl, ?_, rfl, rfl, rfl, rfl, ?_⟩
  · rw [hr]; rfl
  · rw [show run sampleStart [.interrupt, .read 0 (.datagram ping), .distRecv] =
        run (step (run sampleStart [.interrupt]) (.read 0 (.datagram ping))) [.distRecv]
        from rfl, hr]
    rfl

/-- C10, amended: `Send` does not look at the shutdown signal.  In every
state reached from a fresh start in which the signal has fired (and the
process has not exited), `Distributor.Send(m)` and `Sender.Send(m)` append `m`
when the queue holds fewer than 100 messages and leave the queue unchanged
only when it holds 100.  What shutdown stops is the dispatch loop: once the
Distributor's loop takes the shutdown case it has returned, and a later
receive step takes nothing off its queue. -/
theorem send_ignores_shutdown (dialErr : AddrPort → Option Err) (listenErr : Int → Option Err)
    (cfg : Config) (p0 : Pipeline) (evs : List Event) (m : Msg) (i : Nat) (s : Sender)
    (h : start dialErr listenErr cfg = .ok p0)
    (hdone : (run p0 evs).done = true) (hex : (run p0 evs).exited = false)
    (hs : (run p0 evs).d.senders[i]? = some s) :
    (step (run p0 evs) (.distSend m)).d.ch.buf =
      (if (run p0 evs).d.ch.buf.length < 100 then (run p0 evs).d.ch.buf ++ [m]
       else (run p0 evs).d.ch.buf) ∧
    (step (run p0 evs) (.senderSend i m)).d.senders[i]? = some (s.Send m) ∧
    (s.Send m).ch.buf = (if s.ch.buf.length < 100 then s.ch.buf ++ [m] else s.ch.buf) ∧
    (step (run p0 evs) .distDone).d.running = false ∧
    step (step (run p0 evs) .distDone) .distRecv = step (run p0 evs) .distDone := by
  obtain ⟨hc, -, hsc⟩ := run_CapInv evs p0 (CapInv_start h)
  have hscap := (hsc s (mem_of_getElem?_eq_some hs)).1
  generalize run p0 evs = p at *
  refine ⟨?_, ?_, ?_, ?_, ?_⟩
  · simp only [step, hex, Distributor.Send]
    rw [if_neg (by simp), Chan.trySend_buf, hc]
  · have hi : i < p.d.senders.length := (List.getElem?_eq_some.mp hs).1
    simp [step, hex, Pipeline.onSender, hs, hi]
  · simp only [Sender.Send, Chan.trySend_buf, hscap]
  · cases hr : p.d.running <;> simp [step, hex, Distributor.doneCase, hdone, hr]
  · cases hr : p.d.running <;>
      simp [step, hex, Distributor.doneCase, hdone, hr, Distributor.recvCase]

/-- Witness of C10 (amended): the sample start after the interrupt, "ping",
Sender 0. -/
theorem send_ignores_shutdown_witness :
    (step (run sampleStart [.interrupt]) (.distSend ping)).d.ch.buf =
      (if (run sampleStart [.interrupt]).d.ch.buf.length < 100
       then (run sampleStart [.interrupt]).d.ch.buf ++ [ping]
       else (run sampleStart [.interrupt]).d.ch.buf) ∧
    (step (run sampleStart [.interrupt]) (.senderSend 0 ping)).d.senders[0]? =
      some ((NewSender ⟨⟨1, 9001⟩, []⟩).Send ping) ∧
    ((NewSender ⟨⟨1, 9001⟩, []⟩).Send ping).ch.buf =
      (if (NewSender ⟨⟨1, 9001⟩, []⟩).ch.buf.length < 100
       then (NewSender ⟨⟨1, 9001⟩, []⟩).ch.buf ++ [ping]
       else (NewSender ⟨⟨1, 9001⟩, []⟩).ch.buf) ∧
    (step (run sampleStart [.interrupt]) .distDone).d.running = false ∧
    step (step (run sampleStart [.interrupt]) .distDone) .distRecv =
      step (run sampleStart [.interrupt]) .distDone :=
  send_ignores_shutdown (fun _ => none) (fun _ => none) sampleConfig sampleStart [.interrupt]
    ping 0 (NewSender ⟨⟨1, 9001⟩, []⟩) rfl rfl rfl rfl

/-! ## The Sender's loop -/

theorem Sender.recvCase_cons (s : Sender) (m : Msg) (rest : List Msg)
    (hr : s.running = true) (hc : s.cur = none) (hb : s.ch.buf = m :: rest) :
    s.recvCase = some ({ s with ch := { s.ch with buf := rest }, cur := some m },
                       [.sendingMessage m s.t.remote]) := by
  simp [Sender.recvCase, hr, hc, Chan.recv, hb]

theorem Sender.recvCase_nil (s : Sender) (hb : s.ch.buf = []) : s.recvCase = none := by
  simp [Sender.recvCase, Chan.recv, hb]

theorem Sender.run_spec (fuel : Nat) :
    ∀ (ws : Nat → WriteResult) (s : Sender), s.running = true → s.cur = none →
      s.ch.buf.length ≤ fuel →
      (s.run fuel ws).1.t.sent =
          s.t.sent ++ List.zip s.ch.buf ((List.range s.ch.buf.length).map ws) ∧
        (s.run fuel ws).1.ch.buf = [] ∧ (s.run fuel ws).1.cur = none ∧
        (s.run fuel ws).1.running = true ∧ (s.run fuel ws).1.accepted = s.accepted := by
  induction fuel with
  | zero =>
    intro ws s hr hc hf
    have hb : s.ch.buf = [] := List.length_eq_zero.mp (by omega)
    simp [Sender.run, hb, hr, hc]
  | succ fuel ih =>
    intro ws s hr hc hf
    cases hb : s.ch.buf with
    | nil =>
      simp [Sender.run, Sender.recvCase_nil s hb, hb, hr, hc]
    | cons m rest =>
      rw [hb] at hf
      simp only [List.length_cons] at hf
      have h2 := ih (fun k => ws (k + 1))
        { s with ch := { s.ch with buf := rest }, t := s.t.Write m (ws 0), cur := none }
        hr rfl (by simp only; omega)
      simp only [Sender.run, Sender.recvCase_cons s m rest hr hc hb, Sender.writeReturns]
      obtain ⟨h3, h4, h5, h6, h7⟩ := h2
      refine ⟨?_, h4, h5, h6, h7⟩
      rw [h3]
      simp only [UDPConn.Write, List.length_cons, List.range_succ_eq_map, List.map_cons,
        List.zip_cons_cons, List.append_assoc, List.singleton_append, List.map_map]
      rfl

/-- C8: started at its `select` with the queue `[m1, ..., mk]`, no shutdown
signal and whatever each `Write` returns (success, an error, a short count),
the Sender's loop calls `Write` exactly once per queued message, in queue
order, with the payloads `m1, ..., mk`; the `j`-th call returns `ws j` and is
not repeated.  After the `k` calls the queue is empty and the loop has not
returned: it waits at the `select` for the next message. -/
theorem sender_loop_writes_each_message_once (s : Sender) (ws : Nat → WriteResult)
    (fuel : Nat) (hr : s.running = true) (hc : s.cur = none)
    (hf : s.ch.buf.length ≤ fuel) :
    (s.run fuel ws).1.t.sent =
      s.t.sent ++ List.zip s.ch.buf ((List.range s.ch.buf.length).map ws) ∧
    (s.run fuel ws).1.t.payloads = s.t.payloads ++ s.ch.buf ∧
    (s.run fuel ws).1.t.sent.length = s.t.sent.length + s.ch.buf.length ∧
    (s.run fuel ws).1.ch.buf = [] ∧ (s.run fuel ws).1.cur = none ∧
    (s.run fuel ws).1.running = true := by
  obtain ⟨h1, h2, h3, h4, -⟩ := Sender.run_spec fuel ws s hr hc hf
  refine ⟨h1, ?_, ?_, h2, h3, h4⟩
  · simp only [UDPConn.payloads, h1, List.map_append]
    congr 1
    apply List.map_fst_zip
    simp
  · simp [h1]

/-- Witness of C8: the queue holds "ping" and "A"; the first `Write` fails,
the second is short. -/
theorem sender_loop_writes_each_message_once_witness :
    (Sender.run 2 (fun k => if k = 0 then ⟨0, some 1⟩ else ⟨0, none⟩)
        { NewSender ⟨⟨1, 9001⟩, []⟩ with ch := ⟨[ping, [65]], 100⟩ }).1.t.sent =
      [(ping, ⟨0, some 1⟩), ([65], ⟨0, none⟩)] ∧
    (Sender.run 2 (fun k => if k = 0 then ⟨0, some 1⟩ else ⟨0, none⟩)
        { NewSender ⟨⟨1, 9001⟩, []⟩ with ch := ⟨[ping, [65]], 100⟩ }).1.running = true :=
  have h := sender_loop_writes_each_message_once
    { NewSender ⟨⟨1, 9001⟩, []⟩ with ch := ⟨[ping, [65]], 100⟩ }
    (fun k => if k = 0 then ⟨0, some 1⟩ else ⟨0, none⟩) 2 rfl rfl (by decide)
  ⟨h.1, h.2.2.2.2.2⟩

/-! ## Fan-out -/

theorem Pipeline.onSender_getElem? (p : Pipeline) (i j : Nat)
    (f : Sender → Option (Sender × List LogEntry)) :
    (p.onSender i f).d.senders[j]? =
      if j = i then (p.d.senders[j]?).map (fun s => match f s with
        | some r => r.1
        | none => s)
      else p.d.senders[j]? := by
  unfold Pipeline.onSender
  by_cases hji : j = i
  · subst hji
    cases hs : p.d.senders[j]? with
    | none => simp [hs]
    | some s =>
      have hlt : j < p.d.senders.length := (List.getElem?_eq_some.mp hs).1
      cases hf : f s with
      | none => simp [hs, hf]
      | some r => simp [hf, hlt]
  · cases hs : p.d.senders[i]? with
    | none => simp [hji]
    | some s =>
      cases hf : f s with
      | none => simp [hji, hf]
      | some r =>
        have : i ≠ j := fun h => hji h.symm
        simp [hji, hf, List.getElem?_set_ne this]

theorem Pipeline.onSender_frame (p : Pipeline) (i : Nat)
    (f : Sender → Option (Sender × List LogEntry)) :
    (p.onSender i f).exited = p.exited ∧ (p.onSender i f).done = p.done ∧
    (p.onSender i f).ports = p.ports ∧ (p.onSender i f).forwarded = p.forwarded ∧
    (p.onSender i f).d.ch = p.d.ch ∧ (p.onSender i f).d.running = p.d.running ∧
    (p.onSender i f).d.dequeued = p.d.dequeued := by
  rcases Pipeline.onSender_cases p i f with he | ⟨s, s1, l, -, -, he⟩ <;> rw [he] <;> simp

theorem run_append (p : Pipeline) (a b : List Event) : run p (a ++ b) = run (run p a) b := by
  simp [run, List.foldl_append]

theorem run_cons (p : Pipeline) (e : Event) (evs : List Event) :
    run p (e :: evs) = run (step p e) evs := rfl

theorem run_senderTrips (ws : Nat → WriteResult) (n : Nat) (p : Pipeline)
    (hex : p.exited = false) :
    (run p (senderTrips ws n)).exited = false ∧
    ∀ j, (run p (senderTrips ws n)).d.senders[j]? =
      if j < n then (p.d.senders[j]?).map (Sender.trip (ws j)) else p.d.senders[j]? := by
  induction n with
  | zero => exact ⟨hex, fun j => by simp [senderTrips, run]⟩
  | succ n ih =>
    obtain ⟨hex1, hget⟩ := ih
    simp only [senderTrips, run_append, run_cons]
    generalize run p (senderTrips ws n) = q at *
    have e1 : step q (.senderRecv n) = q.onSender n Sender.recvCase := by
      simp [step, hex1]
    have hex2 : (q.onSender n Sender.recvCase).exited = false := by
      rw [(Pipeline.onSender_frame q n _).1]; exact hex1
    have e2 : step (q.onSender n Sender.recvCase) (.senderWrite n (ws n)) =
        (q.onSender n Sender.recvCase).onSender n (fun s => s.writeReturns (ws n)) := by
      simp [step, hex2]
    rw [e1, e2]
    refine ⟨?_, ?_⟩
    · simp only [run, List.foldl_nil]
      rw [(Pipeline.onSender_frame _ n _).1]; exact hex2
    · intro j
      simp only [run, List.foldl_nil]
      rw [Pipeline.onSender_getElem?, Pipeline.onSender_getElem?, hget]
      by_cases hjn : j = n
      · subst hjn
        simp only [if_true, lt_irrefl, if_false, Nat.lt_succ_self, Option.map_map]
        cases hs : p.d.senders[j]? with
        | none => rfl
        | some s =>
          simp only [Option.map_some', Function.comp, Sender.trip]
      · have h1 : (j < n + 1) = (j < n) := by
          apply propext; constructor <;> intro h <;> omega
        simp only [hjn, if_false, h1]

theorem Sender.trip_fresh (t : AddrPort) (m : Msg) (w : WriteResult) :
    Sender.trip w ((NewSender { remote := t, sent := [] }).Send m) =
      { ch := { buf := [], cap := 100 }, t := { remote := t, sent := [(m, w)] }, cur := none,
        running := true, accepted := [m] } := by
  simp [Sender.trip, Sender.recvCase, Sender.writeReturns, NewSender, Sender.Send, Chan.trySend,
    Chan.make, Chan.recv, UDPConn.Write]

theorem fanout_then_trips (p : Pipeline) (m : Msg) (ws : Nat → WriteResult)
    (ts : List AddrPort) (hex : p.exited = false) (hr : p.d.running = true)
    (hq : p.d.ch.buf = [m])
    (hs : p.d.senders = ts.map (fun t => NewSender { remote := t, sent := [] })) :
    (run p (.distRecv :: senderTrips ws ts.length)).d.senders.map
        (fun s => (s.t.remote, s.t.payloads)) = ts.map (fun t => (t, [m])) := by
  rw [run_cons, step_distRecv p m hex hr (by rw [hq]; rfl)]
  obtain ⟨-, hget⟩ := run_senderTrips ws ts.length
    { p with d := { p.d with ch := { p.d.ch with buf := p.d.ch.buf.tail },
                             senders := p.d.senders.map (fun s => s.Send m),
                             dequeued := p.d.dequeued ++ [m] },
             log := p.log ++ [.receivedMessage m] } hex
  apply List.ext_getElem?
  intro j
  rw [List.getElem?_map, hget j]
  simp only [hs, List.getElem?_map, Option.map_map]
  by_cases hj : j < ts.length
  · simp only [hj, if_true, Option.map_map]
    cases hts : ts[j]? with
    | none => rfl
    | some t =>
      simp only [Option.map_some', Function.comp, Sender.trip_fresh, UDPConn.payloads,
        List.map_cons, List.map_nil]
  · have : ts[j]? = none := List.getElem?_eq_none (by omega)
    simp [hj, this]

/-- C2: start the process for any list of targets, so that every queue is
empty, and let `m` be any non-empty payload.  After the Receiver's `d.Send(m)`,
one dispatch step of the Distributor and one trip round the loop of every
Sender, the `Write` calls made are, target by target in the order of the
configuration, exactly one call with the payload `m`, whatever the calls
return.  When the same `m` arrives as a datagram at Receiver `j`, the payload
the Receiver forwards and every target gets is the first 256 bytes of `m`,
which is `m` itself when `m` has at most 256 bytes. -/
theorem fan_out_writes_payload_once_per_target (dialErr : AddrPort → Option Err)
    (listenErr : Int → Option Err) (cfg : Config) (p0 : Pipeline) (m : Msg)
    (ws : Nat → WriteResult) (j : Nat)
    (h : start dialErr listenErr cfg = .ok p0) (hm : m ≠ [])
    (hj : j < cfg.ListenPorts.length) :
    (run p0 ([.distSend m, .distRecv] ++ senderTrips ws cfg.Targets.length)).d.senders.map
        (fun s => (s.t.remote, s.t.payloads)) = cfg.Targets.map (fun t => (t, [m])) ∧
    (run p0 ([.read j (.datagram m), .distRecv] ++
        senderTrips ws cfg.Targets.length)).d.senders.map
        (fun s => (s.t.remote, s.t.payloads)) = cfg.Targets.map (fun t => (t, [m.take 256])) ∧
    (m.length ≤ 256 → m.take 256 = m) := by
  obtain ⟨hs, hc, hr, -, hp, -, hex, -⟩ := start_ok h
  have hmin : m.take (min m.length 256) = m.take 256 := by
    by_cases hle : m.length ≤ 256
    · rw [Nat.min_eq_left hle, List.take_of_length_le hle, List.take_of_length_le (le_refl _)]
    · rw [Nat.min_eq_right (by omega)]
  refine ⟨?_, ?_, List.take_of_length_le⟩
  · simp only [List.cons_append, List.nil_append]
    rw [run_cons]
    apply fanout_then_trips
    · simp [step, hex]
    · simp [step, hex, Distributor.Send, hr]
    · simp [step, hex, Distributor.Send, hc, Chan.trySend, Chan.make]
    · simp [step, hex, Distributor.Send, hs]
  · simp only [List.cons_append, List.nil_append]
    rw [run_cons]
    have hport : p0.ports[j]? = some (cfg.ListenPorts[j]) := by
      rw [hp]; exact List.getElem?_eq_getElem hj
    have hlen : ¬ m.length = 0 := fun h0 => hm (List.length_eq_zero.mp h0)
    have hstep : step p0 (.read j (.datagram m)) =
        { p0 with log := p0.log ++ [.receivedData (m.take 256)],
                  d := p0.d.Send (m.take 256),
                  forwarded := p0.forwarded ++ [m.take 256] } := by
      simp only [step, hex, hport, Receiver.iter_datagram, hmin]
      simp [hlen]
    rw [hstep]
    apply fanout_then_trips
    · exact hex
    · simp [Distributor.Send, hr]
    · simp [Distributor.Send, hc, Chan.trySend, Chan.make]
    · simp [Distributor.Send, hs]

set_option maxRecDepth 100000 in
/-- Witness of C2: "ping" and the three sample targets. -/
theorem fan_out_writes_payload_once_per_target_witness :
    (run sampleStart ([.distSend ping, .distRecv] ++
        senderTrips (fun _ => ⟨4, none⟩) 3)).d.senders.map
        (fun s => (s.t.remote, s.t.payloads)) =
      [(⟨1, 9001⟩, [ping]), (⟨2, 9002⟩, [ping]), (⟨3, 9003⟩, [ping])] ∧
    (run sampleStart ([.read 0 (.datagram ping), .distRecv] ++
        senderTrips (fun _ => ⟨4, none⟩) 3)).d.senders.map
        (fun s => (s.t.remote, s.t.payloads)) =
      [(⟨1, 9001⟩, [ping.take 256]), (⟨2, 9002⟩, [ping.take 256]),
       (⟨3, 9003⟩, [ping.take 256])] ∧
    ping.take 256 = ping :=
  have h := fan_out_writes_payload_once_per_target (fun _ => none) (fun _ => none)
    sampleConfig sampleStart ping (fun _ => ⟨4, none⟩) 0 rfl (by decide) (by decide)
  ⟨h.1, h.2.1, h.2.2 (by decide)⟩

/-! ## Order and origin of the messages -/

theorem step_senders_cases (p : Pipeline) (e : Event) :
    ((step p e).d.senders = p.d.senders ∧ (step p e).d.dequeued = p.d.dequeued) ∨
    (∃ m, e = .distRecv ∧ (step p e).d.senders = p.d.senders.map (fun s => s.Send m) ∧
      (step p e).d.dequeued = p.d.dequeued ++ [m]) ∨
    (∃ i s s1, p.d.senders[i]? = some s ∧ (step p e).d.senders = p.d.senders.set i s1 ∧
      (step p e).d.dequeued = p.d.dequeued ∧
      ((∃ m, e = .senderSend i m ∧ s1 = s.Send m) ∨
       (∃ l, s.recvCase = some (s1, l)) ∨
       (∃ w l, s.writeReturns w = some (s1, l)) ∨
       s1 = { s with running := false })) := by
  unfold step
  split
  · left; exact ⟨rfl, rfl⟩
  · cases e with
    | interrupt => left; exact ⟨rfl, rfl⟩
    | read j r =>
      dsimp only
      split
      · left; exact ⟨rfl, rfl⟩
      · rename_i port _
        rcases Receiver.iter_cases port r p with ⟨e, he⟩ | he | ⟨m, -, he⟩ <;>
          (rw [he]; left; exact ⟨rfl, rfl⟩)
    | distSend m => left; exact ⟨rfl, rfl⟩
    | distRecv =>
      dsimp only
      split
      · left; exact ⟨rfl, rfl⟩
      · rename_i d l hd
        obtain ⟨m, hb, -, hsend, hdq, -⟩ := distributor_recvCase_eq_some hd
        right; left
        exact ⟨m, rfl, hsend, hdq⟩
    | distDone =>
      dsimp only
      split
      · left; exact ⟨rfl, rfl⟩
      · rename_i d hd
        obtain ⟨-, rfl⟩ := distributor_doneCase_eq_some hd
        left; exact ⟨rfl, rfl⟩
    | senderSend i m =>
      dsimp only
      rcases Pipeline.onSender_cases p i (fun s => some (s.Send m, [])) with
        he | ⟨s, s1, l, hi, hf, he⟩
      · rw [he]; left; exact ⟨rfl, rfl⟩
      · rw [he]
        simp only [Option.some.injEq, Prod.mk.injEq] at hf
        right; right
        exact ⟨i, s, s1, hi, rfl, rfl, Or.inl ⟨m, rfl, hf.1.symm⟩⟩
    | senderRecv i =>
      dsimp only
      rcases Pipeline.onSender_cases p i Sender.recvCase with he | ⟨s, s1, l, hi, hf, he⟩
      · rw [he]; left; exact ⟨rfl, rfl⟩
      · rw [he]
        right; right
        exact ⟨i, s, s1, hi, rfl, rfl, Or.inr (Or.inl ⟨l, hf⟩)⟩
    | senderWrite i w =>
      dsimp only
      rcases Pipeline.onSender_cases p i (fun s => s.writeReturns w) with
        he | ⟨s, s1, l, hi, hf, he⟩
      · rw [he]; left; exact ⟨rfl, rfl⟩
      · rw [he]
        right; right
        exact ⟨i, s, s1, hi, rfl, rfl, Or.inr (Or.inr (Or.inl ⟨w, l, hf⟩))⟩
    | senderDone i =>
      dsimp only
      rcases Pipeline.onSender_cases p i
        (fun s => (s.doneCase p.done).map (fun s1 => (s1, []))) with he | ⟨s, s1, l, hi, hf, he⟩
      · rw [he]; left; exact ⟨rfl, rfl⟩
      · rw [he]
        simp only [Option.map_eq_some', Prod.mk.injEq] at hf
        obtain ⟨s2, hf2, rfl, -⟩ := hf
        obtain ⟨-, rfl⟩ := sender_doneCase_eq_some hf2
        right; right
        exact ⟨i, s, _, hi, rfl, rfl, Or.inr (Or.inr (Or.inr rfl))⟩

theorem step_dist_cases (p : Pipeline) (e : Event) (hev : e.isDistSend = false) :
    ((step p e).d.dequeued = p.d.dequeued ∧ (step p e).d.ch.buf = p.d.ch.buf ∧
      (step p e).forwarded = p.forwarded) ∨
    (∃ m, (step p e).d.dequeued = p.d.dequeued ∧
      (step p e).d.ch.buf = (p.d.ch.trySend m).1.buf ∧
      (step p e).forwarded = p.forwarded ++ [m]) ∨
    (∃ m, (step p e).d.dequeued = p.d.dequeued ++ [m] ∧
      p.d.ch.buf = m :: (step p e).d.ch.buf ∧ (step p e).forwarded = p.forwarded) := by
  have hframe : ∀ (i : Nat) (f : Sender → Option (Sender × List LogEntry)),
      (p.onSender i f).d.dequeued = p.d.dequeued ∧ (p.onSender i f).d.ch.buf = p.d.ch.buf ∧
        (p.onSender i f).forwarded = p.forwarded := by
    intro i f
    obtain ⟨-, -, -, h4, h5, -, h7⟩ := Pipeline.onSender_frame p i f
    exact ⟨h7, by rw [h5], h4⟩
  unfold step
  split
  · left; exact ⟨rfl, rfl, rfl⟩
  · cases e with
    | interrupt => left; exact ⟨rfl, rfl, rfl⟩
    | read j r =>
      dsimp only
      split
      · left; exact ⟨rfl, rfl, rfl⟩
      · rename_i port _
        rcases Receiver.iter_cases port r p with ⟨e, he⟩ | he | ⟨m, -, he⟩
        · rw [he]; left; exact ⟨rfl, rfl, rfl⟩
        · rw [he]; left; exact ⟨rfl, rfl, rfl⟩
        · rw [he]; right; left; exact ⟨m, rfl, rfl, rfl⟩
    | distSend m => simp [Event.isDistSend] at hev
    | distRecv =>
      dsimp only
      split
      · left; exact ⟨rfl, rfl, rfl⟩
      · rename_i d l hd
        obtain ⟨m, hb, -, -, hdq, -⟩ := distributor_recvCase_eq_some hd
        right; right
        exact ⟨m, hdq, hb, rfl⟩
    | distDone =>
      dsimp only
      split
      · left; exact ⟨rfl, rfl, rfl⟩
      · rename_i d hd
        obtain ⟨-, rfl⟩ := distributor_doneCase_eq_some hd
        left; exact ⟨rfl, rfl, rfl⟩
    | senderSend i m => left; exact hframe i _
    | senderRecv i => left; exact hframe i _
    | senderWrite i w => left; exact hframe i _
    | senderDone i => left; exact hframe i _

theorem step_AcctInv (p : Pipeline) (e : Event) (h : AcctInv p) : AcctInv (step p e) := by
  unfold AcctInv at *
  have hSend : ∀ (s : Sender) (m : Msg),
      s.accepted = s.t.payloads ++ s.cur.toList ++ s.ch.buf →
      (s.Send m).accepted = (s.Send m).t.payloads ++ (s.Send m).cur.toList ++ (s.Send m).ch.buf := by
    intro s m hs
    simp only [Sender.Send, Chan.trySend]
    split
    · simp [hs]
    · simp [hs]
  rcases step_senders_cases p e with ⟨h1, -⟩ | ⟨m, -, h1, -⟩ | ⟨i, s, s1, hi, h1, -, hc⟩
  · rw [h1]; exact h
  · rw [h1]
    intro s hmem
    obtain ⟨s0, hs0, rfl⟩ := List.mem_map.mp hmem
    exact hSend s0 m (h s0 hs0)
  · rw [h1]
    have hs := h s (mem_of_getElem?_eq_some hi)
    refine forall_mem_set i h ?_
    rcases hc with ⟨m, -, rfl⟩ | ⟨l, hr⟩ | ⟨w, l, hw⟩ | rfl
    · exact hSend s m hs
    · obtain ⟨m, hb, -, hcur, hcur1, -, -, ht, hacc, -⟩ := sender_recvCase_eq_some hr
      rw [hacc, hs, ht, hcur, hcur1, hb]
      simp
    · obtain ⟨m, hcur, hcur1, hch, ht, -, hacc⟩ := Sender.writeReturns_eq_some hw
      rw [hacc, hs, ht, hcur, hcur1, hch]
      simp [UDPConn.payloads, UDPConn.Write]
    · exact hs

theorem step_OrdInv (p : Pipeline) (e : Event) (hev : e.isSenderSend = false)
    (h : OrdInv p) : OrdInv (step p e) := by
  unfold OrdInv at *
  rcases step_senders_cases p e with ⟨h1, h2⟩ | ⟨m, -, h1, h2⟩ | ⟨i, s, s1, hi, h1, h2, hc⟩
  · rw [h1, h2]; exact h
  · rw [h1, h2]
    intro s hmem
    obtain ⟨s0, hs0, rfl⟩ := List.mem_map.mp hmem
    have hs := h s0 hs0
    simp only [Sender.Send, Chan.trySend]
    split
    · simpa using hs.append (List.Sublist.refl [m])
    · simpa using hs.trans (List.sublist_append_left _ _)
  · rw [h1, h2]
    have hs := h s (mem_of_getElem?_eq_some hi)
    refine forall_mem_set i h ?_
    rcases hc with ⟨m, rfl, -⟩ | ⟨l, hr⟩ | ⟨w, l, hw⟩ | rfl
    · simp [Event.isSenderSend] at hev
    · obtain ⟨m, -, -, -, -, -, -, -, hacc, -⟩ := sender_recvCase_eq_some hr
      rw [hacc]; exact hs
    · obtain ⟨m, -, -, -, -, -, hacc⟩ := Sender.writeReturns_eq_some hw
      rw [hacc]; exact hs
    · exact hs

theorem step_SrcInv (p : Pipeline) (e : Event) (hev : e.isDistSend = false)
    (h : SrcInv p) : SrcInv (step p e) := by
  unfold SrcInv at *
  rcases step_dist_cases p e hev with ⟨h1, h2, h3⟩ | ⟨m, h1, h2, h3⟩ | ⟨m, h1, h2, h3⟩
  · rw [h1, h2, h3]; exact h
  · rw [h1, h2, h3, Chan.trySend_buf]
    split
    · rw [← List.append_assoc]
      exact h.append (List.Sublist.refl [m])
    · exact h.trans (List.sublist_append_left _ _)
  · rw [h1, h3]
    rw [h2] at h
    simpa using h

theorem step_remotes (p : Pipeline) (e : Event) :
    (step p e).d.senders.map (fun s => s.t.remote) = p.d.senders.map (fun s => s.t.remote) := by
  rcases step_senders_cases p e with ⟨h1, -⟩ | ⟨m, -, h1, -⟩ | ⟨i, s, s1, hi, h1, -, hc⟩
  · rw [h1]
  · rw [h1, List.map_map]
    rfl
  · rw [h1]
    have hrem : s1.t.remote = s.t.remote := by
      rcases hc with ⟨m, -, rfl⟩ | ⟨l, hr⟩ | ⟨w, l, hw⟩ | rfl
      · rfl
      · obtain ⟨m, -, -, -, -, -, -, ht, -⟩ := sender_recvCase_eq_some hr
        rw [ht]
      · obtain ⟨m, -, -, -, ht, -⟩ := Sender.writeReturns_eq_some hw
        rw [ht]; rfl
      · rfl
    apply List.ext_getElem?
    intro j
    simp only [List.getElem?_map, List.getElem?_set]
    by_cases hij : i = j
    · subst hij
      have hlt : i < p.d.senders.length := (List.getElem?_eq_some.mp hi).1
      simp [hlt, hi, hrem]
    · simp [hij]

theorem inv_start {dialErr : AddrPort → Option Err} {listenErr : Int → Option Err}
    {cfg : Config} {p : Pipeline} (h : start dialErr listenErr cfg = .ok p) :
    AcctInv p ∧ OrdInv p ∧ SrcInv p ∧ p.d.senders.map (fun s => s.t.remote) = cfg.Targets := by
  obtain ⟨hs, hc, -, hd, -, -, -, hf⟩ := start_ok h
  refine ⟨?_, ?_, ?_, ?_⟩
  · intro s hmem
    rw [hs] at hmem
    obtain ⟨t, -, rfl⟩ := List.mem_map.mp hmem
    rfl
  · intro s hmem
    rw [hs] at hmem
    obtain ⟨t, -, rfl⟩ := List.mem_map.mp hmem
    simp [NewSender]
  · unfold SrcInv
    rw [hd, hc, hf]
    exact List.Sublist.refl _
  · rw [hs, List.map_map]
    simp [Function.comp_def, NewSender]

theorem run_AcctInv (evs : List Event) (p : Pipeline) (h : AcctInv p) : AcctInv (run p evs) := by
  induction evs generalizing p with
  | nil => exact h
  | cons e evs ih => exact ih (step p e) (step_AcctInv p e h)

theorem run_OrdInv (evs : List Event) (p : Pipeline)
    (hev : evs.all (fun e => !e.isSenderSend) = true) (h : OrdInv p) : OrdInv (run p evs) := by
  induction evs generalizing p with
  | nil => exact h
  | cons e evs ih =>
    simp only [List.all_cons, Bool.and_eq_true, Bool.not_eq_true'] at hev
    exact ih (step p e) hev.2 (step_OrdInv p e hev.1 h)

theorem run_SrcInv (evs : List Event) (p : Pipeline)
    (hev : evs.all (fun e => !e.isDistSend) = true) (h : SrcInv p) : SrcInv (run p evs) := by
  induction evs generalizing p with
  | nil => exact h
  | cons e evs ih =>
    simp only [List.all_cons, Bool.and_eq_true, Bool.not_eq_true'] at hev
    exact ih (step p e) hev.2 (step_SrcInv p e hev.1 h)

theorem run_remotes (evs : List Event) (p : Pipeline) :
    (run p evs).d.senders.map (fun s => s.t.remote) = p.d.senders.map (fun s => s.t.remote) := by
  induction evs generalizing p with
  | nil => rfl
  | cons e evs ih => rw [run_cons, ih, step_remotes]

theorem payloads_prefix_of_acct {s : Sender}
    (h : s.accepted = s.t.payloads ++ s.cur.toList ++ s.ch.buf) :
    s.t.payloads <+: s.accepted := by
  rw [h, List.append_assoc]
  exact List.prefix_append _ _

/-- C5: in every execution of the program (any events but outside calls of
`Sender.Send`) and for every Sender, the messages that entered the Sender's
queue, in the order they entered, are a subsequence of the messages the
Distributor's loop dequeued, in the order it dequeued them; the payloads the
Sender handed to `Write` are the front part of what entered its queue, hence
also such a subsequence. -/
theorem sender_queue_order_follows_distributor (dialErr : AddrPort → Option Err)
    (listenErr : Int → Option Err) (cfg : Config) (p0 : Pipeline) (evs : List Event)
    (h : start dialErr listenErr cfg = .ok p0)
    (hev : evs.all (fun e => !e.isSenderSend) = true) :
    ∀ s ∈ (run p0 evs).d.senders,
      s.accepted.Sublist (run p0 evs).d.dequeued ∧
      s.t.payloads <+: s.accepted ∧
      s.t.payloads.Sublist (run p0 evs).d.dequeued := by
  obtain ⟨ha, ho, -, -⟩ := inv_start h
  have hA := run_AcctInv evs p0 ha
  have hO := run_OrdInv evs p0 hev ho
  intro s hs
  have hp := payloads_prefix_of_acct (hA s hs)
  exact ⟨hO s hs, hp, hp.sublist.trans (hO s hs)⟩

set_option maxRecDepth 100000 in
/-- Witness of C5: the sample start, "ping" read, dispatched and written by
the first two Senders; Sender 0 afterwards. -/
theorem sender_queue_order_follows_distributor_witness :
    pingWritten ⟨1, 9001⟩ ∈ (run sampleStart pingThroughTwo).d.senders ∧
    (pingWritten ⟨1, 9001⟩).accepted.Sublist (run sampleStart pingThroughTwo).d.dequeued ∧
    (pingWritten ⟨1, 9001⟩).t.payloads <+: (pingWritten ⟨1, 9001⟩).accepted ∧
    (pingWritten ⟨1, 9001⟩).t.payloads.Sublist (run sampleStart pingThroughTwo).d.dequeued :=
  ⟨by decide,
    sender_queue_order_follows_distributor (fun _ => none) (fun _ => none) sampleConfig
      sampleStart pingThroughTwo rfl (by decide) (pingWritten ⟨1, 9001⟩) (by decide)⟩

/-! ## No duplication -/

/-- C6, counterexample: the configuration lists the target 1:9001 twice, so
`NewDistributor` dials it twice and starts two Senders for it.  One non-empty
datagram is read, dispatched, and written by both Senders: two writes to the
one target for one datagram read. -/
theorem duplicate_target_written_twice :
    start (fun _ => none) (fun _ => none) dupConfig = .ok dupStart ∧
    (run dupStart pingThroughTwo).forwarded = [ping] ∧
    (run dupStart pingThroughTwo).writesTo ⟨1, 9001⟩ = 2 ∧
    (run dupStart pingThroughTwo).d.senders.map (fun s => (s.t.remote, s.t.payloads)) =
      [(⟨1, 9001⟩, [ping]), (⟨1, 9001⟩, [ping])] := by
  have hp : dupStart.ports[0]? = some 8000 := rfl
  have he : dupStart.exited = false := rfl
  have h1 : step dupStart (.read 0 (.datagram ping)) =
      { dupStart with log := dupStart.log ++ [.receivedData ping],
                      d := dupStart.d.Send ping,
                      forwarded := [ping] } := by
    simp only [step, he, hp, Receiver.iter_datagram]
    rfl
  refine ⟨rfl, ?_, ?_, ?_⟩ <;>
    (simp only [pingThroughTwo, List.cons_append, List.nil_append, run_cons, h1]; rfl)

/-- C6, amended: no duplication per Sender.  In every execution of the
program (no outside calls of `Send`) there is one Sender per entry of the
list of targets, and the payloads a Sender handed to `Write` are, in order, a
subsequence of the payloads the Receivers forwarded: every write of a Sender
belongs to one Receiver read of its own, one datagram read gives at most one
write per Sender, and a Sender never makes more writes than non-empty
datagrams were read. -/
theorem writes_bounded_by_reads_per_sender (dialErr : AddrPort → Option Err)
    (listenErr : Int → Option Err) (cfg : Config) (p0 : Pipeline) (evs : List Event)
    (h : start dialErr listenErr cfg = .ok p0)
    (hev : evs.all (fun e => !e.isDistSend && !e.isSenderSend) = true) :
    (run p0 evs).d.senders.length = cfg.Targets.length ∧
    ∀ s ∈ (run p0 evs).d.senders,
      s.t.payloads.Sublist (run p0 evs).forwarded ∧
      s.t.sent.length ≤ (run p0 evs).forwarded.length := by
  obtain ⟨ha, ho, hsrc, hrem⟩ := inv_start h
  have hev1 : evs.all (fun e => !e.isSenderSend) = true := by
    rw [List.all_eq_true] at hev ⊢
    intro e he
    have := hev e he
    simp only [Bool.and_eq_true] at this
    exact this.2
  have hev2 : evs.all (fun e => !e.isDistSend) = true := by
    rw [List.all_eq_true] at hev ⊢
    intro e he
    have := hev e he
    simp only [Bool.and_eq_true] at this
    exact this.1
  have hA := run_AcctInv evs p0 ha
  have hO := run_OrdInv evs p0 hev1 ho
  have hS := run_SrcInv evs p0 hev2 hsrc
  have hlen : (run p0 evs).d.senders.length = cfg.Targets.length := by
    have := congrArg List.length (run_remotes evs p0)
    rw [hrem] at this
    simpa using this
  refine ⟨hlen, ?_⟩
  intro s hs
  have hp := payloads_prefix_of_acct (hA s hs)
  have h1 : s.t.payloads.Sublist (run p0 evs).forwarded :=
    (hp.sublist.trans (hO s hs)).trans
      ((List.sublist_append_left _ _).trans hS)
  refine ⟨h1, ?_⟩
  have := h1.length_le
  simpa [UDPConn.payloads] using this

set_option maxRecDepth 100000 in
/-- Witness of C6 (amended): the configuration with the duplicated target
and the execution of the counterexample; Sender 0 afterwards. -/
theorem writes_bounded_by_reads_per_sender_witness :
    (run dupStart pingThroughTwo).d.senders.length = dupConfig.Targets.length ∧
    pingWritten ⟨1, 9001⟩ ∈ (run dupStart pingThroughTwo).d.senders ∧
    (pingWritten ⟨1, 9001⟩).t.payloads.Sublist (run dupStart pingThroughTwo).forwarded ∧
    (pingWritten ⟨1, 9001⟩).t.sent.length ≤ (run dupStart pingThroughTwo).forwarded.length :=
  have h := writes_bounded_by_reads_per_sender (fun _ => none) (fun _ => none) dupConfig
    dupStart pingThroughTwo rfl (by decide)
  ⟨h.1, by decide, (h.2 (pingWritten ⟨1, 9001⟩) (by decide)).1,
    (h.2 (pingWritten ⟨1, 9001⟩) (by decide)).2⟩

/-! ## Drop under load -/

set_option maxRecDepth 100000 in
/-- C4, counterexample: a new Sender, 150 messages submitted, no `Write`
completes.  The loop takes the first message off the queue and stalls in
`Write`; of the other 149 messages 100 fill the queue.  So 101 of the 150
calls enqueued their message and 49 messages were dropped, not 50. -/
theorem stalled_sender_drops_only_49 :
    (StallOp.sends stallAfterFirst).length = 150 ∧
    ((NewSender ⟨⟨1, 9001⟩, []⟩).stalled stallAfterFirst).t.sent = [] ∧
    ((NewSender ⟨⟨1, 9001⟩, []⟩).stalled stallAfterFirst).cur = some [1] ∧
    ((NewSender ⟨⟨1, 9001⟩, []⟩).stalled stallAfterFirst).ch.buf.length = 100 ∧
    ((NewSender ⟨⟨1, 9001⟩, []⟩).stalled stallAfterFirst).accepted.length = 101 ∧
    150 - ((NewSender ⟨⟨1, 9001⟩, []⟩).stalled stallAfterFirst).accepted.length = 49 := by
  decide

theorem Sender.stalled_inv (ops : List StallOp) :
    ∀ (s : Sender) (k : Nat), s.ch.cap = 100 → s.ch.buf.length ≤ 100 →
      s.accepted.length = s.ch.buf.length + s.cur.toList.length →
      s.accepted.length ≤ k → (s.accepted.length < k → 100 ≤ s.accepted.length) →
      (s.stalled ops).ch.buf.length ≤ 100 ∧
      (s.stalled ops).accepted.length =
        (s.stalled ops).ch.buf.length + (s.stalled ops).cur.toList.length ∧
      (s.stalled ops).accepted.length ≤ k + (StallOp.sends ops).length ∧
      ((s.stalled ops).accepted.length < k + (StallOp.sends ops).length →
        100 ≤ (s.stalled ops).accepted.length) ∧
      (s.stalled ops).t = s.t := by
  induction ops with
  | nil =>
    intro s k _ h2 h3 h4 h5
    exact ⟨h2, h3, h4, h5, rfl⟩
  | cons op ops ih =>
    intro s k h1 h2 h3 h4 h5
    cases op with
    | send m =>
      simp only [Sender.stalled, StallOp.sends, List.length_cons]
      have hb := Chan.trySend_buf s.ch m
      have hc := Chan.trySend_cap s.ch m
      rw [h1] at hb
      by_cases hlt : s.ch.buf.length < 100
      · have hlt' : s.ch.buf.length < s.ch.cap := by omega
        have hacc : (s.Send m).accepted = s.accepted ++ [m] := by
          simp [Sender.Send, Chan.trySend, hlt']
        have hbuf : (s.Send m).ch.buf = s.ch.buf ++ [m] := by
          simp only [Sender.Send, hb, hlt, if_true]
        have := ih (s.Send m) (k + 1) (by simp only [Sender.Send]; omega)
          (by rw [hbuf]; simp only [List.length_append, List.length_singleton]; omega)
          (by rw [hacc, hbuf]
              simp only [List.length_append, List.length_singleton, Sender.Send]; omega)
          (by rw [hacc]; simp only [List.length_append, List.length_singleton]; omega)
          (by rw [hacc]; simp only [List.length_append, List.length_singleton]; omega)
        obtain ⟨a, b, c, d, e⟩ := this
        exact ⟨a, b, by omega, fun h => d (by omega), by rw [e]; rfl⟩
      · have hlt' : ¬ s.ch.buf.length < s.ch.cap := by omega
        have hs : s.Send m = s := by
          simp [Sender.Send, Chan.trySend, hlt']
        rw [hs]
        obtain ⟨a, b, c, d, e⟩ := ih s (k + 1) h1 h2 h3 (by omega) (fun _ => by omega)
        exact ⟨a, b, by omega, fun h => d (by omega), e⟩
    | take =>
      simp only [Sender.stalled, StallOp.sends]
      cases hr : s.recvCase with
      | none => exact ih s k h1 h2 h3 h4 h5
      | some r =>
        obtain ⟨s1, l⟩ := r
        obtain ⟨m, hb, hcap, hcur, hcur1, -, -, ht, hacc, -⟩ := sender_recvCase_eq_some hr
        have hlen : s.ch.buf.length = s1.ch.buf.length + 1 := by rw [hb]; rfl
        rw [hcur] at h3
        simp only [Option.toList, List.length_nil] at h3
        obtain ⟨a, b, c, d, e⟩ := ih s1 k (by omega) (by omega)
          (by rw [hacc, hcur1]; simp only [Option.toList, List.length_singleton]; omega)
          (by rw [hacc]; omega) (fun h => by rw [hacc] at h ⊢; exact h5 h)
        exact ⟨a, b, c, d, by rw [e, ht]⟩

theorem Sender.stalled_sends (msgs : List Msg) :
    ∀ s : Sender, s.ch.cap = 100 → s.ch.buf.length ≤ 100 →
      (s.stalled (msgs.map .send)).ch.buf = s.ch.buf ++ msgs.take (100 - s.ch.buf.length) ∧
      (s.stalled (msgs.map .send)).accepted =
        s.accepted ++ msgs.take (100 - s.ch.buf.length) ∧
      (s.stalled (msgs.map .send)).cur = s.cur := by
  induction msgs with
  | nil => intro s _ _; simp [Sender.stalled]
  | cons m msgs ih =>
    intro s h1 h2
    simp only [List.map_cons, Sender.stalled]
    by_cases hlt : s.ch.buf.length < 100
    · have hlt' : s.ch.buf.length < s.ch.cap := by omega
      have hacc : (s.Send m).accepted = s.accepted ++ [m] := by
        simp [Sender.Send, Chan.trySend, hlt']
      have hbuf : (s.Send m).ch.buf = s.ch.buf ++ [m] := by
        simp [Sender.Send, Chan.trySend, hlt']
      have hcap : (s.Send m).ch.cap = 100 := by
        simp only [Sender.Send, Chan.trySend_cap]; exact h1
      obtain ⟨a, b, c⟩ := ih (s.Send m) hcap
        (by rw [hbuf]; simp only [List.length_append, List.length_singleton]; omega)
      have hk : 100 - s.ch.buf.length = (100 - (s.ch.buf.length + 1)) + 1 := by omega
      rw [a, b, c, hbuf, hacc, hk]
      simp only [List.length_append, List.length_singleton, List.take_succ_cons,
        List.append_assoc, List.singleton_append]
      exact ⟨trivial, trivial, rfl⟩
    · have hlt' : ¬ s.ch.buf.length < s.ch.cap := by omega
      have hs : s.Send m = s := by
        simp [Sender.Send, Chan.trySend, hlt']
      rw [hs]
      obtain ⟨a, b, c⟩ := ih s h1 h2
      have hk : 100 - s.ch.buf.length = 0 := by omega
      rw [a, b, c, hk]
      simp

/-- C4, amended: a new Sender (empty queue of capacity 100) whose `Write`
does not return while 150 messages are submitted through `Send`, in any
interleaving with its loop.  Every call returns (`Send` is total and has no
error result), no write completes, the queue ends with at most 100 messages,
and 100 or 101 of the calls enqueued their message: 50 messages are dropped,
or 49 when the loop took one message off the queue for its stalled `Write`.
When the loop takes nothing, the queue ends as the first 100 messages and
the last 50 are the ones dropped. -/
theorem stalled_sender_drops_49_or_50 (c : UDPConn) (ops : List StallOp) (msgs : List Msg)
    (hops : (StallOp.sends ops).length = 150) (hmsgs : msgs.length = 150) :
    ((NewSender c).stalled ops).t.sent = c.sent ∧
    ((NewSender c).stalled ops).ch.buf.length ≤ 100 ∧
    ((NewSender c).stalled ops).accepted.length =
      ((NewSender c).stalled ops).ch.buf.length +
        ((NewSender c).stalled ops).cur.toList.length ∧
    (((NewSender c).stalled ops).accepted.length = 100 ∨
      ((NewSender c).stalled ops).accepted.length = 101) ∧
    (150 - ((NewSender c).stalled ops).accepted.length = 50 ∨
      150 - ((NewSender c).stalled ops).accepted.length = 49) ∧
    ((NewSender c).stalled (msgs.map .send)).ch.buf = msgs.take 100 ∧
    ((NewSender c).stalled (msgs.map .send)).accepted = msgs.take 100 ∧
    (msgs.drop 100).length = 50 := by
  obtain ⟨h1, h2, h3, h4, h5⟩ := Sender.stalled_inv ops (NewSender c) 0 rfl
    (by simp [NewSender, Chan.make]) rfl (by simp [NewSender]) (by simp [NewSender])
  obtain ⟨g1, g2, -⟩ := Sender.stalled_sends msgs (NewSender c) rfl
    (by simp [NewSender, Chan.make])
  have hcur : ((NewSender c).stalled ops).cur.toList.length ≤ 1 := by
    cases ((NewSender c).stalled ops).cur <;> simp
  rw [hops] at h3 h4
  have hge : 100 ≤ ((NewSender c).stalled ops).accepted.length := h4 (by omega)
  refine ⟨by rw [h5]; rfl, h1, h2, by omega, by omega, ?_, ?_, ?_⟩
  · rw [g1]; simp [NewSender, Chan.make]
  · rw [g2]; simp [NewSender, Chan.make]
  · rw [List.length_drop, hmsgs]

set_option maxRecDepth 100000 in
/-- Witness of C4 (amended): the steps of the counterexample, and 150 copies
of one message. -/
theorem stalled_sender_drops_49_or_50_witness :
    (((NewSender ⟨⟨1, 9001⟩, []⟩).stalled stallAfterFirst).accepted.length = 100 ∨
      ((NewSender ⟨⟨1, 9001⟩, []⟩).stalled stallAfterFirst).accepted.length = 101) ∧
    ((NewSender ⟨⟨1, 9001⟩, []⟩).stalled ((List.replicate 150 [2]).map .send)).ch.buf =
      (List.replicate 150 [2]).take 100 :=
  have h := stalled_sender_drops_49_or_50 ⟨⟨1, 9001⟩, []⟩ stallAfterFirst
    (List.replicate 150 [2]) (by decide) (List.length_replicate _ _)
  ⟨h.2.2.2.1, h.2.2.2.2.2.1⟩

end CueRepeater
